import Mathlib

/-!
Verification of the reactive (signal/effect) core and the state-machine
engine of the Origami widget framework, embedded from
`src/src/widgets/framework.ts`.
-/

namespace Origami

/-! ### Reactive core

Shallow embedding of `ReactiveWidget.signal` / `effect` / `derived`
(framework.ts lines 487-574).  Signals are identified by natural-number
ids; `RState.vals` holds each signal's current value and `RState.subs`
its subscriber set (an insertion-ordered set of effect ids, mirroring a
JS `Set` of wrapper closures).  `tracking` is the module-level
`subscriber` variable.  `runs` is ghost instrumentation: one entry per
completed effect run, recording the effect id and the `(signal, value)`
pairs it read during that run.

Effect bodies are restricted to a read-only fragment (they read signals
and do not write them or throw), which covers every scenario the claims
quantify over; with read-only bodies the `Set.forEach` notification in
the signal setter visits exactly the subscribers present when the write
happened, so it is modelled by folding over that snapshot.
-/

abbrev Val := Int

/-- Body of an effect closure: either read a fixed list of signals in
order, or read signal `c` and, when its value is nonzero, also read
signal `t` (a conditional dependency). -/
inductive EffBody where
  | readSeq (sigs : List Nat)
  | readCond (c : Nat) (t : Nat)

structure RState where
  vals : Nat → Val
  subs : Nat → List Nat
  tracking : Option Nat
  runs : List (Nat × List (Nat × Val))

/-- `Set.add`: append if not already a member (JS sets preserve
insertion order and ignore duplicate adds). -/
def addOnce (l : List Nat) (c : Nat) : List Nat :=
  if c ∈ l then l else l ++ [c]

/-- The signal getter: `if (subscriber !== null) subscriptions.add(subscriber);
return value;` (framework.ts lines 509-512). -/
def sigRead (s : RState) (i : Nat) : RState × Val :=
  match s.tracking with
  | some c =>
      ({ s with subs := fun j => if j = i then addOnce (s.subs i) c else s.subs j },
       s.vals i)
  | none => (s, s.vals i)

def readMany : RState → List Nat → RState × List (Nat × Val)
  | s, [] => (s, [])
  | s, i :: rest =>
      let p := sigRead s i
      let q := readMany p.1 rest
      (q.1, (i, p.2) :: q.2)

def runBody (s : RState) : EffBody → RState × List (Nat × Val)
  | .readSeq sigs => readMany s sigs
  | .readCond c t =>
      let p := sigRead s c
      if p.2 ≠ 0 then
        let q := sigRead p.1 t
        (q.1, [(c, p.2), (t, q.2)])
      else
        (p.1, [(c, p.2)])

/-- The effect wrapper (framework.ts lines 525-529):
`subscriber = wrapper; try { fn(); } finally { subscriber = null; }`.
Note the wrapper performs no unsubscription before re-running `fn` and
resets `subscriber` to `null` (not to a saved previous value).  A run
appends one ghost `runs` entry. -/
def runComp (env : List EffBody) (c : Nat) (s : RState) : RState :=
  match env.get? c with
  | none => s
  | some body =>
      let s1 : RState := { s with tracking := some c }
      let p := runBody s1 body
      { p.1 with tracking := none, runs := p.1.runs ++ [(c, p.2)] }

/-- `effect(fn)` runs the wrapper immediately (framework.ts line 538). -/
def newEffect (env : List EffBody) (c : Nat) (s : RState) : RState :=
  runComp env c s

/-- The signal setter (framework.ts lines 513-516):
`value = updated; subscriptions.forEach(fn => fn());` — the value is
stored unconditionally (no equality test) and every subscriber is
re-run synchronously, in insertion order. -/
def sigWrite (env : List EffBody) (i : Nat) (v : Val) (s : RState) : RState :=
  let s1 : RState := { s with vals := fun j => if j = i then v else s.vals j }
  (s1.subs i).foldl (fun acc c => runComp env c acc) s1

/-! ### Derived signals

`ReactiveWidget.derived` (framework.ts lines 542-563).  The cached value
is initialised to `fn()`; the getter registers the tracking subscriber
and returns the cache; the setter is
`set value(_: U) { console.warn('Cannot set value on derived signal'); }`
— it ignores the assigned value, emits a console warning (counted in
`warns`) and never throws, which the `Except` result type makes
explicit. -/

structure DCell where
  cached : Val
  dsubs : List Nat
  warns : Nat
  deriving DecidableEq

/-- `derived(fn)` initialisation: `let cachedValue = fn()` where `fn`
reads the current signal values. -/
def mkDerived (f : (Nat → Val) → Val) (s : RState) : DCell :=
  ⟨f s.vals, [], 0⟩

def derivedRead (d : DCell) (tracking : Option Nat) : DCell × Val :=
  match tracking with
  | some c => ({ d with dsubs := addOnce d.dsubs c }, d.cached)
  | none => (d, d.cached)

def derivedWrite (d : DCell) (_ : Val) : Except String DCell :=
  .ok { d with warns := d.warns + 1 }

/-! ### State-machine engine

Shallow embedding of `StateMutable` (framework.ts lines 595-777).
The machine instance carries the current state label, the `_rendering`
flag, the `_pendingTransitions` FIFO queue and the `_scheduledRender`
flag.  `commits` is ghost instrumentation logging each assignment to
`this.state` performed by `applyTransition`; `errors` and `warns` count
`console.error` / `console.warn` emissions.

The embedding covers the synchronous fragment: handlers return their
result directly (a handler that throws is modelled by an `Except.error`
result); the promise branch of `handleTransition` defers work to a
later turn and is not exercised by any claim.
-/

structure Machine where
  state : String
  rendering : Bool
  pending : List String
  scheduledRender : Bool
  commits : List String
  errors : Nat
  warns : Nat
  deriving DecidableEq

/-- `scheduleRender` (framework.ts lines 624-631): if a render is
already queued do nothing, otherwise mark one queued (the queued
microtask itself runs on a later cooperative turn). -/
def scheduleRender (m : Machine) : Machine :=
  if m.scheduledRender then m else { m with scheduledRender := true }

/-- `applyTransition` (framework.ts lines 693-714), with the mutable
`_pendingTransitions` queue threaded as the explicit argument `pend` so
that the source's self-recursion (which pops one queue element per
call) becomes structural recursion.  The source sets `_rendering = true`
before `scheduleRender()` and resets it to `false` in the `finally`
block; no user code runs in between (`scheduleRender` only sets a flag),
so the committed machine has `rendering = false` again, which the
commit below builds directly. -/
def applyT : String → List String → Machine → Machine
  | next, pend, m =>
    if next = "" ∨ m.state = next then { m with pending := pend }
    else if m.rendering then { m with pending := pend ++ [next] }
    else
      let m1 : Machine :=
        scheduleRender { m with state := next, pending := pend,
                                commits := m.commits ++ [next] }
      match pend with
      | [] => m1
      | p :: rest => applyT p rest m1

def applyTransition (next : String) (m : Machine) : Machine :=
  applyT next m.pending m

/-- Items of an array-valued handler.  A middleware receives
`(args, next)`; the well-behaved forms are: forward the call to `next`
and return its result (`pass`), return an own result without calling
`next` (`short`), or throw (`throws`).  `notFn` stands for an array
element that is not callable (e.g. a state name inside a `next:`
declaration list), whose invocation raises a `TypeError`. -/
inductive Mw where
  | pass
  | short (t : String)
  | throws (msg : String)
  deriving DecidableEq

inductive ChainItem where
  | mw (m : Mw)
  | notFn
  deriving DecidableEq

/-- `runMiddlewareChain` (framework.ts lines 681-691): the shared
mutable `index` makes `next` walk the list left to right; running past
the end returns the machine's current state `st`. -/
def runChain (st : String) : List ChainItem → Except String String
  | [] => .ok st
  | .notFn :: _ => .error "TypeError: middleware is not a function"
  | .mw .pass :: rest => runChain st rest
  | .mw (.short t) :: _ => .ok t
  | .mw (.throws e) :: _ => .error e

/-- Values of an event-map entry (`handler[event]`): a literal next
state, an event-handler function, or a middleware array. -/
inductive EvtVal where
  | lit (s : String)
  | fnE (f : Unit → Except String String)
  | arr (items : List ChainItem)

/-- A state's handler: bare transition function, middleware array, or
event map.  The `nextDecl` / `rules` components model the `next:` and
`rules:` keys of a declaration object such as
`{ next: [...], rules: [...] }` (README "Transition Rules"); no code in
the repository ever reads either key, so they are inert data carried
alongside the event entries.  (The embedding's event lookup assumes
event names are distinct from the literal key names `next` and
`rules`; no claim sends such an event.) -/
inductive Handler where
  | fn (f : Unit → Except String String)
  | mws (items : List ChainItem)
  | evtMap (entries : List (String × EvtVal)) (nextDecl : List String)
      (rules : List (String → String → Bool))

/-- `send` (framework.ts lines 633-657).  The whole dispatch is wrapped
in `try { ... } catch (error) { console.error(...); }`: a handler that
throws is caught, the error logged, and `send` returns normally with
the state unchanged and no render scheduled.  An event with no entry in
the current state's event map is a silent no-op. -/
def send (tbl : String → Option Handler) (event : String) (m : Machine) : Machine :=
  match tbl m.state with
  | none => m
  | some (.fn f) =>
      match f () with
      | .ok t => applyTransition t m
      | .error _ => { m with errors := m.errors + 1 }
  | some (.mws items) =>
      match runChain m.state items with
      | .ok t => applyTransition t m
      | .error _ => { m with errors := m.errors + 1 }
  | some (.evtMap entries _ _) =>
      match entries.lookup event with
      | none => m
      | some (.lit s) => applyTransition s m
      | some (.fnE f) =>
          match f () with
          | .ok t => applyTransition t m
          | .error _ => { m with errors := m.errors + 1 }
      | some (.arr items) =>
          match runChain m.state items with
          | .ok t => applyTransition t m
          | .error _ => { m with errors := m.errors + 1 }

/-- `autoStep` (framework.ts lines 716-737): while fewer than `maxSteps`
steps have run, evaluate a bare function handler of the current state;
a new, nonempty, different result is committed and the loop continues;
any other outcome breaks out; a handler that throws logs the error and
breaks.  Exhausting the bound logs the
`Auto-step reached max steps` warning.  `fuel` is the number of steps
still allowed (`maxSteps - steps`). -/
def autoStep (tbl : String → Option Handler) : Nat → Machine → Machine
  | 0, m => { m with warns := m.warns + 1 }
  | fuel + 1, m =>
      match tbl m.state with
      | some (.fn f) =>
          match f () with
          | .ok next =>
              if next ≠ "" ∧ next ≠ m.state then
                autoStep tbl fuel (applyTransition next m)
              else m
          | .error _ => { m with errors := m.errors + 1 }
      | _ => m

/-- The source's default bound: `autoStep(maxSteps = 10)`. -/
def autoStepDefault (tbl : String → Option Handler) (m : Machine) : Machine :=
  autoStep tbl 10 m

/-! ### View resolution

`findWidget` (framework.ts lines 739-763) and the resolution part of
`render` (lines 765-777).  A view table is an association list from
pattern string to factory (keys of a JS object literal in insertion
order, all non-numeric).  JS regular-expression semantics enters only
through the parameter `rt`: `rt inner state` is `some b` when
`new RegExp(inner).test(state)` returns `b`, and `none` when the
pattern fails to compile (the source catches that, warns, and moves
on).  The factory itself is opaque (`α`). -/

/-- `String.prototype.split(sep)` on the character list of a string. -/
def jsSplit (sep : Char) : List Char → List (List Char)
  | [] => [[]]
  | c :: rest =>
      match jsSplit sep rest with
      | [] => [[c]]
      | h :: t => if c = sep then [] :: h :: t else (c :: h) :: t

def isJsSpace (c : Char) : Bool :=
  c = ' ' ∨ c = '\t' ∨ c = '\n' ∨ c = '\r'

/-- `String.prototype.trim()`. -/
def jsTrim (cs : List Char) : List Char :=
  ((cs.dropWhile isJsSpace).reverse.dropWhile isJsSpace).reverse

/-- `pattern.includes('|') && pattern.split('|').map(s => s.trim()).includes(state)`
(framework.ts lines 742-744). -/
def pipeMatch (p st : String) : Bool :=
  p.data.contains '|' && ((jsSplit '|' p.data).map jsTrim).contains st.data

/-- `pattern.endsWith('.*') && state.startsWith(pattern.slice(0, -2))`
(framework.ts lines 748-750). -/
def dotStarMatch (p st : String) : Bool :=
  List.isSuffixOf ['.', '*'] p.data &&
    List.isPrefixOf (p.data.take (p.data.length - 2)) st.data

/-- `pattern.startsWith('/') && pattern.endsWith('/') &&
new RegExp(pattern.slice(1, -1)).test(state)` (framework.ts lines
754-757); a compile failure (`rt _ _ = none`) is caught and skipped. -/
def regexMatch (rt : String → String → Option Bool) (p st : String) : Bool :=
  p.data.head? = some '/' && List.isSuffixOf ['/'] p.data &&
    rt (String.mk (p.data.drop 1).dropLast) st == some true

/-- Pattern classes are scanned in the source's fixed order: exact key,
then every key with a pipe alternation, then every `prefix.*` key, then
every `/regex/` key (compile failures skipped), then the literal
`"*"` key. -/
def findWidget (ws : List (String × α)) (st : String)
    (rt : String → String → Option Bool) : Option α :=
  match ws.lookup st with
  | some f => some f
  | none =>
  match ws.find? fun e => pipeMatch e.1 st with
  | some e => some e.2
  | none =>
  match ws.find? fun e => dotStarMatch e.1 st with
  | some e => some e.2
  | none =>
  match ws.find? fun e => regexMatch rt e.1 st with
  | some e => some e.2
  | none => ws.lookup "*"

/-- The resolution step of `StateMutable.render`: an unresolved state
throws `No widget defined for state ...`, and the surrounding catch
re-throws it to the caller. -/
def renderView (ws : List (String × α)) (st : String)
    (rt : String → String → Option Bool) : Except String α :=
  match findWidget ws st rt with
  | some f => .ok f
  | none => .error "No widget defined for state"

/-! ### Helper lemmas: the reactive core -/

theorem addOnce_mono {l : List Nat} {x : Nat} (c : Nat) (h : x ∈ l) :
    x ∈ addOnce l c := by
  unfold addOnce
  split
  · exact h
  · exact List.mem_append_left _ h

theorem sigRead_vals (s : RState) (i : Nat) : (sigRead s i).1.vals = s.vals := by
  unfold sigRead
  cases s.tracking <;> rfl

theorem sigRead_runs (s : RState) (i : Nat) : (sigRead s i).1.runs = s.runs := by
  unfold sigRead
  cases s.tracking <;> rfl

theorem sigRead_subs_mono {s : RState} {i x : Nat} (j : Nat)
    (h : x ∈ s.subs i) : x ∈ (sigRead s j).1.subs i := by
  unfold sigRead
  cases s.tracking with
  | none => exact h
  | some c =>
      simp only
      by_cases hij : i = j
      · subst hij
        simp only [if_pos rfl]
        exact addOnce_mono c h
      · simp only [if_neg hij]
        exact h

theorem readMany_vals (sigs : List Nat) : ∀ (s : RState),
    (readMany s sigs).1.vals = s.vals := by
  induction sigs with
  | nil => intro s; rfl
  | cons i rest ih =>
      intro s
      show (readMany (sigRead s i).1 rest).1.vals = s.vals
      rw [ih, sigRead_vals]

theorem readMany_runs (sigs : List Nat) : ∀ (s : RState),
    (readMany s sigs).1.runs = s.runs := by
  induction sigs with
  | nil => intro s; rfl
  | cons i rest ih =>
      intro s
      show (readMany (sigRead s i).1 rest).1.runs = s.runs
      rw [ih, sigRead_runs]

theorem readMany_subs_mono (sigs : List Nat) : ∀ {s : RState} {i x : Nat},
    x ∈ s.subs i → x ∈ (readMany s sigs).1.subs i := by
  induction sigs with
  | nil => intro s i x h; exact h
  | cons j rest ih =>
      intro s i x h
      exact ih (sigRead_subs_mono j h)

theorem runBody_vals (s : RState) (b : EffBody) : (runBody s b).1.vals = s.vals := by
  cases b with
  | readSeq sigs => exact readMany_vals sigs s
  | readCond c t =>
      simp only [runBody]
      by_cases h : (sigRead s c).2 ≠ 0
      · rw [if_pos h]
        simp only [sigRead_vals]
      · rw [if_neg h]
        simp only [sigRead_vals]

theorem runBody_runs (s : RState) (b : EffBody) : (runBody s b).1.runs = s.runs := by
  cases b with
  | readSeq sigs => exact readMany_runs sigs s
  | readCond c t =>
      simp only [runBody]
      by_cases h : (sigRead s c).2 ≠ 0
      · rw [if_pos h]
        simp only [sigRead_runs]
      · rw [if_neg h]
        simp only [sigRead_runs]

theorem runBody_subs_mono {s : RState} {i x : Nat} (b : EffBody)
    (h : x ∈ s.subs i) : x ∈ (runBody s b).1.subs i := by
  cases b with
  | readSeq sigs => exact readMany_subs_mono sigs h
  | readCond c t =>
      simp only [runBody]
      by_cases hc : (sigRead s c).2 ≠ 0
      · rw [if_pos hc]
        exact sigRead_subs_mono t (sigRead_subs_mono c h)
      · rw [if_neg hc]
        exact sigRead_subs_mono c h

theorem runComp_vals (env : List EffBody) (c : Nat) (s : RState) :
    (runComp env c s).vals = s.vals := by
  unfold runComp
  cases env.get? c with
  | none => rfl
  | some b => simp only [runBody_vals]

theorem runComp_runs_len (env : List EffBody) (c : Nat) (s : RState)
    (h : c < env.length) :
    (runComp env c s).runs.length = s.runs.length + 1 := by
  unfold runComp
  cases hb : env.get? c with
  | none =>
      rw [List.get?_eq_none] at hb
      omega
  | some b =>
      simp only [List.length_append, runBody_runs, List.length_cons,
        List.length_nil]

theorem runComp_subs_mono (env : List EffBody) {s : RState} {i x : Nat} (c : Nat)
    (h : x ∈ s.subs i) : x ∈ (runComp env c s).subs i := by
  unfold runComp
  cases env.get? c with
  | none => exact h
  | some b => exact runBody_subs_mono b h

theorem foldRuns (env : List EffBody) (l : List Nat) : ∀ (s : RState),
    (∀ c ∈ l, c < env.length) →
    (l.foldl (fun acc c => runComp env c acc) s).runs.length
        = s.runs.length + l.length ∧
    (l.foldl (fun acc c => runComp env c acc) s).vals = s.vals := by
  induction l with
  | nil => intro s _; exact ⟨rfl, rfl⟩
  | cons c rest ih =>
      intro s h
      have hc : c < env.length := h c (List.mem_cons_self c rest)
      have hrest : ∀ d ∈ rest, d < env.length :=
        fun d hd => h d (List.mem_cons_of_mem c hd)
      have := ih (runComp env c s) hrest
      refine ⟨?_, ?_⟩
      · simp only [List.foldl_cons, List.length_cons]
        rw [this.1, runComp_runs_len env c s hc]
        omega
      · simp only [List.foldl_cons]
        rw [this.2, runComp_vals]

theorem fold_subs_mono (env : List EffBody) (l : List Nat) : ∀ {s : RState} {i x : Nat},
    x ∈ s.subs i → x ∈ ((l.foldl (fun acc c => runComp env c acc) s)).subs i := by
  induction l with
  | nil => intro s i x h; exact h
  | cons c rest ih =>
      intro s i x h
      exact ih (runComp_subs_mono env c h)

/-! ### Claims C1, C2, C3, C9: the reactive core -/

/-- C1 scenario: one signal (id 0) holding `5`, one effect that reads
it. -/
def env1 : List EffBody := [.readSeq [0]]

def rs0 : RState := ⟨fun j => if j = 0 then 5 else 0, fun _ => [], none, []⟩

def rs1 : RState := newEffect env1 0 rs0

/-- C1, counterexample.  After the effect's initial run (`rs1.runs` has
one entry) the cell holds `5`; writing the identical value `5` re-runs
the dependent effect once (the run log grows to two entries), so a
write of an equal value triggers one rerun, not zero: the setter has no
equality test of any kind. -/
theorem C1_counterexample :
    rs1.runs.length = 1 ∧ (sigWrite env1 0 5 rs1).runs.length = 2 := by
  decide

/-- C1, amended: `signal`'s setter stores the new value unconditionally
and synchronously re-runs every current subscriber exactly once per
write, whether or not the value changed; there is no equality policy
(configurable or default) and no suppression of no-op writes. -/
theorem C1_no_equality_suppression (env : List EffBody) (i : Nat) (v : Val)
    (s : RState) (h : ∀ c ∈ s.subs i, c < env.length) :
    (sigWrite env i v s).vals i = v ∧
    (sigWrite env i v s).runs.length = s.runs.length + (s.subs i).length := by
  unfold sigWrite
  have hf := foldRuns env (s.subs i)
      { s with vals := fun j => if j = i then v else s.vals j } h
  refine ⟨?_, hf.1⟩
  rw [hf.2]
  simp

/-- C1, witness for `C1_no_equality_suppression` at the concrete
scenario: writing `5` over `5` stores `5` and performs one rerun. -/
theorem C1_witness :
    (sigWrite env1 0 5 rs1).vals 0 = 5 ∧
    (sigWrite env1 0 5 rs1).runs.length = rs1.runs.length + (rs1.subs 0).length :=
  C1_no_equality_suppression env1 0 5 rs1 (by decide)

/-- C2 scenario: two signals holding `1` and `2`, one effect reading
both. -/
def env2 : List EffBody := [.readSeq [0, 1]]

def rt0 : RState :=
  ⟨fun j => if j = 0 then 1 else if j = 1 then 2 else 0, fun _ => [], none, []⟩

def rt1 : RState := newEffect env2 0 rt0

/-- C2, evaluation of the code at the failing input.  The effect reads
signals 0 and 1; the synchronous burst `sig0 := 10; sig1 := 20` re-runs
it once per write — two reruns, not one — and the first rerun observes
the intermediate state `(10, 2)` (signal 1 still stale); only the
second rerun sees both final values.  There is no scheduler or pending
set anywhere in the signal implementation: subscribers run inside the
setter itself. -/
theorem C2_rerun_per_write :
    (sigWrite env2 1 20 (sigWrite env2 0 10 rt1)).runs =
      [(0, [(0, 1), (1, 2)]), (0, [(0, 10), (1, 2)]), (0, [(0, 10), (1, 20)])] := by
  decide

/-- C3 scenario: signal 0 is a flag (initially `1`), signal 1 is data;
the effect reads the flag and, while it is nonzero, also the data. -/
def env3 : List EffBody := [.readCond 0 1]

def ru0 : RState :=
  ⟨fun j => if j = 0 then 1 else if j = 1 then 7 else 0, fun _ => [], none, []⟩

def ru1 : RState := newEffect env3 0 ru0

def ru2 : RState := sigWrite env3 0 0 ru1

/-- C3, counterexample.  The effect's first run reads signals 0 and 1,
subscribing to both.  Writing `0` to the flag re-runs it; the rerun
reads only signal 0 (the run log's last entry is `(0, [(0, 0)])`), yet
the effect is still in signal 1's subscriber set: subscriptions are
never cleared before a rerun. -/
theorem C3_counterexample :
    0 ∈ ru2.subs 1 ∧ ru2.runs.getLast? = some (0, [(0, 0)]) := by
  decide

/-- C3, amended: an effect's prior subscriptions are never cleared —
neither running a computation nor writing a signal ever removes a
member from any subscriber set (removal happens only in the effect's
disposer and the widget's `dispose`), so a cell's subscriber set may
retain computations that did not read the cell during their most
recent run. -/
theorem C3_subscriptions_persist (env : List EffBody) (x i : Nat) :
    (∀ (c : Nat) (s : RState), x ∈ s.subs i → x ∈ (runComp env c s).subs i) ∧
    (∀ (j : Nat) (v : Val) (s : RState),
        x ∈ s.subs i → x ∈ (sigWrite env j v s).subs i) := by
  constructor
  · intro c s h
    exact runComp_subs_mono env c h
  · intro j v s h
    exact fold_subs_mono env _ h

/-- C3, witness for `C3_subscriptions_persist` at the concrete
scenario: the effect stays subscribed to signal 1 across the rerun
caused by the flag write. -/
theorem C3_witness : 0 ∈ (sigWrite env3 0 0 ru1).subs 1 :=
  (C3_subscriptions_persist env3 0 1).2 0 0 ru1 (by decide)

/-- C9 scenario: a derived cell over a one-signal state. -/
def dEnvState : RState := ⟨fun j => if j = 0 then 5 else 0, fun _ => [], none, []⟩

def dEx : DCell := mkDerived (fun vals => vals 0 + 1) dEnvState

/-- C9, counterexample.  Assigning `99` to the derived cell completes
normally (`Except.ok`, so no exception reaches the caller) and leaves
the cached value `6` untouched, only bumping the `console.warn`
counter: the misuse is absorbed with a warning, not surfaced as a
propagated exception. -/
theorem C9_counterexample :
    derivedWrite dEx 99 = .ok ⟨6, [], 1⟩ ∧ (derivedWrite dEx 99).isOk = true := by
  constructor <;> rfl

/-- C9, amended: assigning to a derived cell is rejected as a silent
no-op plus a `console.warn` — the cached value is unchanged, subsequent
reads still return the value computed by the derived function, and no
exception propagates to the caller (the setter body is just the warn
call). -/
theorem C9_write_rejected_no_throw (f : (Nat → Val) → Val) (s : RState)
    (v : Val) (tr : Option Nat) :
    derivedWrite (mkDerived f s) v = .ok { mkDerived f s with warns := 1 } ∧
    (derivedRead { mkDerived f s with warns := 1 } tr).2 = f s.vals := by
  refine ⟨rfl, ?_⟩
  cases tr <;> rfl

/-! ### Helper lemmas: the transition engine -/

@[simp] theorem scheduleRender_state (m : Machine) :
    (scheduleRender m).state = m.state := by
  unfold scheduleRender
  split <;> rfl

@[simp] theorem scheduleRender_rendering (m : Machine) :
    (scheduleRender m).rendering = m.rendering := by
  unfold scheduleRender
  split <;> rfl

@[simp] theorem scheduleRender_pending (m : Machine) :
    (scheduleRender m).pending = m.pending := by
  unfold scheduleRender
  split <;> rfl

@[simp] theorem scheduleRender_commits (m : Machine) :
    (scheduleRender m).commits = m.commits := by
  unfold scheduleRender
  split <;> rfl

/-- Draining the pending queue: starting a commit outside a render
(`rendering = false`) with the queue preloaded with `q`, every queued
target is applied after the in-flight one, in FIFO order; the chain
condition says each target is nonempty and differs from its
predecessor, so none of the queued commits degenerates into a no-op. -/
theorem applyT_drain (q : List String) : ∀ (m : Machine) (t : String),
    m.rendering = false →
    List.Chain (fun a b => b ≠ "" ∧ b ≠ a) m.state (t :: q) →
    (applyT t q m).commits = m.commits ++ (t :: q) ∧
    (applyT t q m).state = (t :: q).getLast (by simp) ∧
    (applyT t q m).pending = [] := by
  induction q with
  | nil =>
      intro m t hr hc
      rw [List.chain_cons] at hc
      obtain ⟨⟨ht1, ht2⟩, _⟩ := hc
      simp only [applyT]
      rw [if_neg (not_or.mpr ⟨ht1, fun h => ht2 h.symm⟩), if_neg (by simp [hr])]
      refine ⟨by simp, by simp, by simp⟩
  | cons p rest ih =>
      intro m t hr hc
      rw [List.chain_cons] at hc
      obtain ⟨⟨ht1, ht2⟩, hc2⟩ := hc
      rw [applyT]
      rw [if_neg (not_or.mpr ⟨ht1, fun h => ht2 h.symm⟩), if_neg (by simp [hr])]
      have hm1 := ih (scheduleRender { m with state := t, pending := p :: rest, commits := m.commits ++ [t] }) p (by simp [hr]) (by simpa using hc2)
      refine ⟨?_, ?_, hm1.2.2⟩
      · rw [hm1.1]
        simp
      · rw [hm1.2.1]
        exact (List.getLast_cons (by simp)).symm

theorem applyTransition_self (m : Machine) : applyTransition m.state m = m := by
  unfold applyTransition
  rw [applyT]
  rw [if_pos (Or.inr rfl)]

theorem runChain_all_pass (st : String) (items : List ChainItem)
    (h : ∀ x ∈ items, x = ChainItem.mw Mw.pass) : runChain st items = .ok st := by
  induction items with
  | nil => rfl
  | cons a rest ih =>
      have ha := h a (List.mem_cons_self a rest)
      subst ha
      simp only [runChain]
      exact ih fun x hx => h x (List.mem_cons_of_mem _ hx)

/-- A single commit with an empty queue outside a render either no-ops
(empty or unchanged target) or assigns the state, logs the commit, and
marks a render as scheduled. -/
theorem applyTransition_simple (t : String) (m : Machine)
    (h1 : m.rendering = false) (h2 : m.pending = []) :
    applyTransition t m = m ∨
    applyTransition t m =
      { m with state := t, commits := m.commits ++ [t], scheduledRender := true } := by
  obtain ⟨st, rnd, pnd, sch, cms, er, wr⟩ := m
  simp only at h1 h2
  subst h1
  subst h2
  unfold applyTransition
  rw [applyT]
  by_cases hx : t = "" ∨ st = t
  · rw [if_pos hx]
    left
    rfl
  · rw [if_neg hx]
    right
    cases sch <;> rfl

/-! ### Claims C4, C5, C6, C7, C10: the transition engine -/

/-- C4: a transition requested while another commit is in flight
(`_rendering` set) is only appended to the FIFO queue — nothing is
committed at that moment, so commits never interleave; and when a
commit starts with requests queued, the in-flight target is committed
first and then every queued target in request order, none dropped,
leaving the machine in the last requested state with an empty queue. -/
theorem C4_reentrant_queuing :
    (∀ (m : Machine) (t : String), m.rendering = true → t ≠ "" → m.state ≠ t →
        applyTransition t m = { m with pending := m.pending ++ [t] }) ∧
    (∀ (m : Machine) (t : String) (q : List String),
        m.rendering = false → m.pending = q →
        List.Chain (fun a b => b ≠ "" ∧ b ≠ a) m.state (t :: q) →
        (applyTransition t m).commits = m.commits ++ (t :: q) ∧
        (applyTransition t m).state = (t :: q).getLast (by simp) ∧
        (applyTransition t m).pending = []) := by
  constructor
  · intro m t hr h1 h2
    unfold applyTransition
    rw [applyT]
    rw [if_neg (not_or.mpr ⟨h1, h2⟩), if_pos hr]
  · intro m t q hr hp hc
    unfold applyTransition
    rw [hp]
    exact applyT_drain q m t hr hc

def mQueued : Machine := ⟨"a", true, [], false, [], 0, 0⟩

def mDrain : Machine := ⟨"a", false, ["c"], false, [], 0, 0⟩

/-- C4, witness for `C4_reentrant_queuing`: a request during an
in-flight commit is queued; a commit of `"b"` with `"c"` already queued
commits `"b"` then `"c"`. -/
theorem C4_witness :
    applyTransition "x" mQueued = { mQueued with pending := ["x"] } ∧
    (applyTransition "b" mDrain).commits = mDrain.commits ++ ["b", "c"] ∧
    (applyTransition "b" mDrain).pending = [] := by
  have h1 := C4_reentrant_queuing.1 mQueued "x" rfl (by decide) (by decide)
  have h2 := C4_reentrant_queuing.2 mDrain "b" ["c"] rfl rfl
    (List.Chain.cons ⟨by decide, by decide⟩
      (List.Chain.cons ⟨by decide, by decide⟩ List.Chain.nil))
  exact ⟨h1, h2.1, h2.2.2⟩

def guardedTbl : String → Option Handler := fun s =>
  if s = "draft" then
    some (.evtMap [("PUBLISH", .lit "published")] ["published", "archived"]
      [fun _ _ => false])
  else none

def guardedTblTrue : String → Option Handler := fun s =>
  if s = "draft" then
    some (.evtMap [("PUBLISH", .lit "published")] ["published", "archived"]
      [fun _ _ => true])
  else none

def mDraft : Machine := ⟨"draft", false, [], false, [], 0, 0⟩

/-- C5, evaluation of the code at the failing input.  State `draft`
declares allowed next-states `["published", "archived"]` and the guard
`(current, proposed) => false` (the README's `next:` / `rules:`
declaration form); sending an event that proposes `"published"`
commits the transition and schedules a render anyway, and the result
is bit-for-bit independent of whether the guard returns `false` or
`true`: `send` / `applyTransition` never read the `rules` (or `next`)
declarations, so guard rejection cannot happen. -/
theorem C5_guards_not_evaluated :
    send guardedTbl "PUBLISH" mDraft =
      ⟨"published", false, [], true, ["published"], 0, 0⟩ ∧
    send guardedTblTrue "PUBLISH" mDraft = send guardedTbl "PUBLISH" mDraft := by
  exact ⟨by decide, by decide⟩

/-- C6: a middleware chain in which every middleware forwards to its
`next` continuation (and none returns an own result) falls off the end
and yields the machine's current state; `applyTransition` then sees
`next === this.state` and no-ops: the machine is completely unchanged —
same state, nothing committed, no render scheduled, no error.  This
holds both for a middleware-list state handler and for a middleware
list bound to an event. -/
theorem C6_chain_fallthrough (tbl : String → Option Handler) (m : Machine)
    (e : String) :
    (∀ items, tbl m.state = some (.mws items) →
        (∀ x ∈ items, x = ChainItem.mw Mw.pass) → send tbl e m = m) ∧
    (∀ entries nd rs items, tbl m.state = some (.evtMap entries nd rs) →
        entries.lookup e = some (.arr items) →
        (∀ x ∈ items, x = ChainItem.mw Mw.pass) → send tbl e m = m) := by
  constructor
  · intro items ht hp
    unfold send
    rw [ht]
    dsimp only
    rw [runChain_all_pass m.state items hp]
    exact applyTransition_self m
  · intro entries nd rs items ht hl hp
    unfold send
    rw [ht]
    dsimp only
    rw [hl]
    dsimp only
    rw [runChain_all_pass m.state items hp]
    exact applyTransition_self m

def tblAllPass : String → Option Handler := fun s =>
  if s = "a" then some (.mws [.mw .pass, .mw .pass]) else none

def mPass : Machine := ⟨"a", false, [], false, [], 0, 0⟩

/-- C6, witness for `C6_chain_fallthrough`: two pass-through middleware
leave the machine untouched. -/
theorem C6_witness : send tblAllPass "E" mPass = mPass :=
  (C6_chain_fallthrough tblAllPass mPass "E").1 [.mw .pass, .mw .pass] rfl
    (by decide)

theorem autoStep_commits_bound (tbl : String → Option Handler) :
    ∀ (fuel : Nat) (m : Machine), m.rendering = false → m.pending = [] →
      (autoStep tbl fuel m).commits.length ≤ m.commits.length + fuel := by
  intro fuel
  induction fuel with
  | zero =>
      intro m h1 h2
      simp [autoStep]
  | succ n ih =>
      intro m h1 h2
      rw [autoStep]
      cases htbl : tbl m.state with
      | none => simp
      | some h =>
          cases h with
          | mws items => simp
          | evtMap entries nd rs => simp
          | fn f =>
              dsimp only
              cases hf : f () with
              | error e => simp
              | ok next =>
                  dsimp only
                  by_cases hnx : next ≠ "" ∧ next ≠ m.state
                  · rw [if_pos hnx]
                    rcases applyTransition_simple next m h1 h2 with heq | heq
                    · rw [heq]
                      exact le_trans (ih m h1 h2) (by omega)
                    · rw [heq]
                      have hb := ih { m with state := next, commits := m.commits ++ [next], scheduledRender := true } (by simp [h1]) (by simp [h2])
                      simp only [List.length_append, List.length_cons, List.length_nil] at hb
                      omega
                  · rw [if_neg hnx]
                    omega

def tblCycle : String → Option Handler := fun s =>
  if s = "a" then some (.fn fun _ => .ok "b")
  else if s = "b" then some (.fn fun _ => .ok "a")
  else none

def mAuto : Machine := ⟨"a", false, [], false, [], 0, 0⟩

/-- C7: one auto-step cycle starting outside a render commits at most
`fuel` transitions (so at most the default bound of 10), and on the
pathological table that cycles `a → b → a → ...` forever, the default
cycle stops after exactly 10 commits with one `console.warn`, no
exception (the function is total and logs `errors := 0`), and the
machine left in the last state it reached. -/
theorem C7_autostep_bounded :
    (∀ (tbl : String → Option Handler) (fuel : Nat) (m : Machine),
        m.rendering = false → m.pending = [] →
        (autoStep tbl fuel m).commits.length ≤ m.commits.length + fuel) ∧
    autoStepDefault tblCycle mAuto =
      ⟨"a", false, [], true, ["b", "a", "b", "a", "b", "a", "b", "a", "b", "a"],
        0, 1⟩ :=
  ⟨fun tbl fuel m h1 h2 => autoStep_commits_bound tbl fuel m h1 h2, by decide⟩

/-- C7, witness for `C7_autostep_bounded` at a concrete bound. -/
theorem C7_witness :
    (autoStep tblCycle 3 mAuto).commits.length ≤ mAuto.commits.length + 3 :=
  C7_autostep_bounded.1 tblCycle 3 mAuto rfl rfl

/-- C10: whichever shape the current state's handler has — bare
transition function, middleware list, or an event-map entry bound to a
function — a synchronous throw while running it is caught by `send`'s
`try`/`catch`: `send` returns normally (the exception does not reach
its caller), only the `console.error` count changes, so the state is
unchanged, nothing is committed and no render is scheduled. -/
theorem C10_send_catches (tbl : String → Option Handler) (m : Machine)
    (e msg : String) :
    (∀ f, tbl m.state = some (.fn f) → f () = .error msg →
        send tbl e m = { m with errors := m.errors + 1 }) ∧
    (∀ items, tbl m.state = some (.mws items) →
        runChain m.state items = .error msg →
        send tbl e m = { m with errors := m.errors + 1 }) ∧
    (∀ entries nd rs f, tbl m.state = some (.evtMap entries nd rs) →
        entries.lookup e = some (.fnE f) → f () = .error msg →
        send tbl e m = { m with errors := m.errors + 1 }) := by
  refine ⟨?_, ?_, ?_⟩
  · intro f ht hf
    unfold send
    rw [ht]
    dsimp only
    rw [hf]
  · intro items ht hrc
    unfold send
    rw [ht]
    dsimp only
    rw [hrc]
  · intro entries nd rs f ht hl hf
    unfold send
    rw [ht]
    dsimp only
    rw [hl]
    dsimp only
    rw [hf]

def tblThrow : String → Option Handler := fun _ => some (.fn fun _ => .error "boom")

def mThrow : Machine := ⟨"s", false, [], false, [], 0, 0⟩

/-- C10, witness for `C10_send_catches`: a bare handler that throws
only bumps the error count. -/
theorem C10_witness :
    send tblThrow "E" mThrow = { mThrow with errors := mThrow.errors + 1 } :=
  (C10_send_catches tblThrow mThrow "E" "boom").1 _ rfl rfl

/-! ### Claim C8: view resolution -/

/-- A concrete stand-in for the JS regular-expression engine on the
patterns used below: `bad(` fails to compile; `^lo` tests a two-letter
head; `load.+` is made to match for the inputs exercised. -/
def rtEx : String → String → Option Bool := fun p s =>
  if p = "bad(" then none
  else if p = "^lo" then some (List.isPrefixOf ['l', 'o'] s.data)
  else if p = "load.+" then some true
  else some false

/-- C8: view-table rules are evaluated exact key first, then pipe
alternations, then dotted-prefix patterns, then slash-delimited
regexes (invalid ones skipped), then `"*"`, first match winning within
each class — in particular a table with both `"loading"` and
`"load.*"` resolves state `"loading"` to the exact entry even though
the dotted pattern also covers it; an earlier-listed dotted pattern
loses to a pipe alternation, an earlier-listed regex loses to a dotted
pattern, and an earlier-listed `"*"` loses to a matching regex; a
pattern that fails to compile is skipped in favour of later classes;
and a state no rule matches makes the render raise an error to the
caller. -/
theorem C8_resolution_priority :
    findWidget [("loading", 1), ("load.*", 2), ("*", 9)] "loading" rtEx = some 1 ∧
    findWidget [("load.*", 2), ("idle|loading", 3)] "loading" rtEx = some 3 ∧
    findWidget [("a|loading", 7), ("idle | loading", 3)] "loading" rtEx = some 7 ∧
    findWidget [("/load.+/", 4), ("load.*", 2)] "loadx" rtEx = some 2 ∧
    findWidget [("*", 9), ("/^lo/", 4)] "lox" rtEx = some 4 ∧
    findWidget [("/bad(/", 9), ("*", 5)] "loading" rtEx = some 5 ∧
    findWidget ([("idle", 1)] : List (String × Nat)) "loading" rtEx = none ∧
    renderView ([("idle", 1)] : List (String × Nat)) "loading" rtEx =
      .error "No widget defined for state" := by
  refine ⟨by decide, by decide, by decide, by decide, by decide, by decide,
    by decide, ?_⟩
  rfl

end Origami
